import Mathlib

/-!
Verification of the CDQuizBot core against its specification.

Shallow embedding of the quiz-format parser (`src/file_parser.py`), the
block validator and quiz assembler (`src/file_parser.py`,
`src/bot.py::receive_test_file`), and the test-session engine
(`src/bot.py::handle_answer_question`, `handle_continue_test`,
`finish_test`, `calculate_test_cost`).

Python strings are embedded as `List Char` (`Str`); Python `str.strip()`
is embedded as `pyStrip` (drop leading/trailing whitespace); Python ints
that are only ever non-negative in the program (counters clamped with
`max(0, _)`, counts, durations) are embedded as `Nat`, with `max(0, x-1)`
becoming truncated subtraction `x - 1`; the float percentage is embedded
as `ℚ` (all arithmetic involved is exact in both).
-/

namespace CDQuizBot

/-- Python string embedded as a list of characters. -/
abbrev Str := List Char

/-- Python `str.strip()`: remove leading and trailing whitespace. -/
def pyStrip (s : Str) : Str :=
  ((s.dropWhile Char.isWhitespace).reverse.dropWhile Char.isWhitespace).reverse

/-! ## `calculate_test_cost` (src/bot.py lines 317-335) -/

/-- Embedding of `calculate_test_cost`.  The Python function works in
floats but only ever produces whole multiples of 5000; we use `Nat`.
`math.ceil((question_count - 300) / 100.0)` for `question_count ≥ 300`
is the ceiling division `(question_count - 300 + 99) / 100`. -/
def calculate_test_cost (question_count : Nat) : Nat :=
  let base_price := 10000
  if question_count ≤ 100 then
    base_price
  else if question_count < 200 then
    base_price + 5000
  else if question_count < 300 then
    base_price + 10000
  else
    let additional_100s := (question_count - 300 + 99) / 100
    base_price + 10000 + additional_100s * 5000

/-- The cost formula as the specification words it: base 10000;
ranges 101-199 and 200-299 add 5000 and 10000; from 300 on,
`10000 + 10000 + 5000 * ceil((n - 300) / 100)`. -/
def cost_spec (n : Nat) : Nat :=
  if n ≤ 100 then 10000
  else if n ≤ 199 then 15000
  else if n ≤ 299 then 20000
  else 10000 + 10000 + 5000 * ((n - 300 + 99) / 100)

/-! ## `is_correct_answer_marker` (src/file_parser.py lines 23-30) -/

/-- The ordered marker list from `is_correct_answer_marker`. -/
def markers : List Str :=
  [['#'], ['*'], ['✓'], ['√'], ['+'], ['→'], ['→', '→'], ['>', '>'], ['✅'], ['✔']]

/-- The Python `for marker in markers: if text_stripped.startswith(marker)`
loop: the first marker in list order that is a prefix of the text. -/
def findMarker : List Str → Str → Option Str
  | [], _ => none
  | m :: ms, t => if m.isPrefixOf t then some m else findMarker ms t

/-- Embedding of `is_correct_answer_marker`: strip the line; if it starts
with a marker (first match in list order) return `true` and the text after
the marker, stripped; otherwise `false` and the stripped line. -/
def is_correct_answer_marker (text : Str) : Bool × Str :=
  let ts := pyStrip text
  match findMarker markers ts with
  | some m => (true, pyStrip (ts.drop m.length))
  | none => (false, ts)

/-! ## Session engine: `handle_answer_question` (src/bot.py lines 1519-1646) -/

/-- A `UserAnswer` row (src/database.py lines 80-90): the recorded answer
of one attempt to one question.  `answer_id = none` means skipped. -/
structure UserAnswer where
  question_id : Nat
  answer_id : Option Nat
  is_correct : Bool
  is_skipped : Bool
deriving DecidableEq

/-- The three `TestResult` counters that `handle_answer_question` mutates. -/
structure Counters where
  correct_answers : Nat
  wrong_answers : Nat
  skipped_answers : Nat
deriving DecidableEq

/-- The state `handle_answer_question` reads and writes for one attempt:
its `UserAnswer` rows and its `TestResult` counters. -/
structure SessionState where
  answers : List UserAnswer
  result : Counters
deriving DecidableEq

/-- A freshly created attempt: no recorded answers, all counters zero
(src/bot.py lines 1261-1269). -/
def initState : SessionState := ⟨[], ⟨0, 0, 0⟩⟩

/-- SQLAlchemy mutates the row selected by `scalar_one_or_none` in place;
we model that as replacing the first row with the given question id. -/
def replaceFirst : List UserAnswer → Nat → UserAnswer → List UserAnswer
  | [], _, _ => []
  | ex :: rest, qid, ua =>
    if ex.question_id = qid then ua :: rest else ex :: replaceFirst rest qid ua

/-- Embedding of the state mutation of `handle_answer_question`.
`choice` is `none` for a skip (`answer_id is None`), or
`some (answer_id, is_correct)` where `is_correct` is the `is_correct`
column of the selected `Answer` row (the code reads it from the
database).  The Python clamps `max(0, x - 1)` become `Nat` truncated
subtraction `x - 1`. -/
def handle_answer_question (st : SessionState) (question_id : Nat)
    (choice : Option (Nat × Bool)) : SessionState :=
  let existing := st.answers.find? (fun ua => ua.question_id == question_id)
  match choice with
  | none =>
    match existing with
    | some ex =>
      let ex' : UserAnswer :=
        { ex with is_skipped := true, is_correct := false, answer_id := none }
      let r := st.result
      let r :=
        if !ex.is_skipped then
          let r :=
            if ex.is_correct then { r with correct_answers := r.correct_answers - 1 }
            else { r with wrong_answers := r.wrong_answers - 1 }
          { r with skipped_answers := r.skipped_answers + 1 }
        else r
      ⟨replaceFirst st.answers question_id ex', r⟩
    | none =>
      let ua : UserAnswer := ⟨question_id, none, false, true⟩
      ⟨st.answers ++ [ua],
        { st.result with skipped_answers := st.result.skipped_answers + 1 }⟩
  | some (answer_id, is_correct) =>
    match existing with
    | some ex =>
      let ex' : UserAnswer :=
        { ex with answer_id := some answer_id, is_correct := is_correct,
                  is_skipped := false }
      let r := st.result
      let r :=
        if ex.is_skipped then { r with skipped_answers := r.skipped_answers - 1 }
        else if ex.is_correct then { r with correct_answers := r.correct_answers - 1 }
        else { r with wrong_answers := r.wrong_answers - 1 }
      let r :=
        if is_correct then { r with correct_answers := r.correct_answers + 1 }
        else { r with wrong_answers := r.wrong_answers + 1 }
      ⟨replaceFirst st.answers question_id ex', r⟩
    | none =>
      let ua : UserAnswer := ⟨question_id, some answer_id, is_correct, false⟩
      let r :=
        if is_correct then
          { st.result with correct_answers := st.result.correct_answers + 1 }
        else { st.result with wrong_answers := st.result.wrong_answers + 1 }
      ⟨st.answers ++ [ua], r⟩

/-- One `recordAnswer` operation: question id and chosen answer
(`none` = skip). -/
abbrev RecordOp := Nat × Option (Nat × Bool)

/-- A sequence of `handle_answer_question` operations applied in order. -/
def applyOps (st : SessionState) (ops : List RecordOp) : SessionState :=
  ops.foldl (fun s op => handle_answer_question s op.1 op.2) st

/-- The three answer categories of the specification. -/
inductive Category
  | correct
  | wrong
  | skipped
deriving DecidableEq

/-- Membership test of a recorded answer in a category: a row is correct
if `is_correct`, skipped if `is_skipped`, wrong if neither. -/
def catP : Category → UserAnswer → Bool
  | .correct => fun ua => ua.is_correct
  | .wrong => fun ua => !ua.is_correct && !ua.is_skipped
  | .skipped => fun ua => ua.is_skipped

/-- The category of a recorded answer row. -/
def categoryOf (ua : UserAnswer) : Category :=
  if ua.is_skipped then .skipped else if ua.is_correct then .correct else .wrong

/-- The category a `recordAnswer` operation lands in. -/
def categoryOfChoice (choice : Option (Nat × Bool)) : Category :=
  match choice with
  | none => .skipped
  | some (_, true) => .correct
  | some (_, false) => .wrong

/-- The running counter belonging to a category. -/
def counterOf (st : SessionState) : Category → Nat
  | .correct => st.result.correct_answers
  | .wrong => st.result.wrong_answers
  | .skipped => st.result.skipped_answers

/-- Each running counter equals the number of recorded answers of that
category. -/
def countersMatch (st : SessionState) : Prop :=
  ∀ c : Category, counterOf st c = st.answers.countP (catP c)

/-- No recorded row is flagged both correct and skipped (every row the
code writes has exclusive flags). -/
def flagsExclusive (l : List UserAnswer) : Prop :=
  ∀ ua ∈ l, ¬(ua.is_correct = true ∧ ua.is_skipped = true)

/-- The row contents an update writes over the existing row `ex`. -/
def newRow (choice : Option (Nat × Bool)) (ex : UserAnswer) : UserAnswer :=
  match choice with
  | none => { ex with is_skipped := true, is_correct := false, answer_id := none }
  | some (aid, isc) =>
    { ex with answer_id := some aid, is_correct := isc, is_skipped := false }

/-! ## `handle_continue_test` (src/bot.py lines 1283-1345) -/

/-- A `Question` row (src/database.py lines 35-44); only the fields the
resume logic reads. -/
structure QuestionRow where
  id : Nat
  question_number : Nat
  question_text : Str
deriving DecidableEq

/-- Outcome of `handle_continue_test` on a found, not-yet-completed,
owned attempt. -/
inductive ContinueOutcome where
  | completedAndScored
  | showQuestion (index : Nat)
deriving DecidableEq

/-- The `for i, question in enumerate(all_questions)` loop with default
`len(all_questions)`: index of the first question without any
`UserAnswer` row (skipped or answered), or the length when none. -/
def next_question_index (all_questions : List QuestionRow)
    (answered_question_ids : List Nat) : Nat :=
  all_questions.findIdx (fun q => !(answered_question_ids.contains q.id))

/-- Embedding of the resume decision of `handle_continue_test`:
`all_questions` is the question list ordered by `question_number` (the
SQL `order_by`), `answered_question_ids` the question ids having a
`UserAnswer` row for this attempt.  When every question is answered the
code stamps `completed_at` and calls `finish_test` (scores the attempt);
otherwise it shows the question at the computed index. -/
def handle_continue_test (all_questions : List QuestionRow)
    (answered_question_ids : List Nat) : ContinueOutcome :=
  let next := next_question_index all_questions answered_question_ids
  if next ≥ all_questions.length then .completedAndScored
  else .showQuestion next

/-! ## `finish_test` (src/bot.py lines 1728-1840) -/

/-- A `TestResult` row (src/database.py lines 59-77).  `completed` embeds
`completed_at is not None`. -/
structure AttemptRow where
  id : Nat
  test_id : Nat
  user_id : Nat
  correct_answers : Nat
  wrong_answers : Nat
  skipped_answers : Nat
  duration_seconds : Nat
  best_score : Nat
  best_correct : Nat
  best_wrong : Nat
  best_skipped : Nat
  best_duration : Nat
  completed : Bool
deriving DecidableEq

/-- The rows the previous-best query ranges over: same test, same user,
different id.  Note: the code does NOT filter on completion status. -/
def otherAttempts (db : List AttemptRow) (tid uid rid : Nat) : List AttemptRow :=
  db.filter (fun r => r.test_id == tid && r.user_id == uid && r.id != rid)

/-- `select(func.max(TestResult.best_correct))` with `scalar() or 0`:
maximum of the `best_correct` snapshots of the other rows, 0 when none.
It is a maximum over snapshots, not over `correct_answers`. -/
def priorBestCorrect (db : List AttemptRow) (tid uid rid : Nat) : Nat :=
  ((otherAttempts db tid uid rid).map (fun r => r.best_correct)).foldr max 0

/-- The other rows whose snapshot attains `priorBestCorrect`. -/
def tiedPriorBest (db : List AttemptRow) (tid uid rid : Nat) : List AttemptRow :=
  (otherAttempts db tid uid rid).filter
    (fun r => r.best_correct == priorBestCorrect db tid uid rid)

/-- `ORDER BY best_duration LIMIT 1`: the first row of minimal
`best_duration` (SQLite keeps insertion order among ties). -/
def argminBestDuration : List AttemptRow → Option AttemptRow
  | [] => none
  | r :: rs =>
    match argminBestDuration rs with
    | none => some r
    | some m => if r.best_duration ≤ m.best_duration then some r else some m

/-- Write the attempt's own counts and duration into its best-* snapshot. -/
def setBestOwn (tr : AttemptRow) (duration : Nat) : AttemptRow :=
  { tr with best_correct := tr.correct_answers, best_wrong := tr.wrong_answers,
            best_skipped := tr.skipped_answers, best_duration := duration,
            best_score := tr.correct_answers }

/-- Copy the previous best row's snapshot forward. -/
def copyBest (tr pb : AttemptRow) : AttemptRow :=
  { tr with best_correct := pb.best_correct, best_wrong := pb.best_wrong,
            best_skipped := pb.best_skipped, best_duration := pb.best_duration,
            best_score := pb.best_score }

/-- Embedding of `finish_test`: recount skipped answers from the
`UserAnswer` rows, merge the best snapshot, and compute position and
percentage over ALL `TestResult` rows of the test (the ranking queries
do not filter on completion).  Returns the updated row, the position and
the percentage; `none` when the row id is not found (early return). -/
def finish_test (db : List AttemptRow) (test_result_id duration : Nat)
    (user_answers : List UserAnswer) : Option (AttemptRow × Nat × ℚ) :=
  match db.find? (fun r => r.id == test_result_id) with
  | none => none
  | some tr0 =>
    let tr1 := { tr0 with duration_seconds := duration }
    let actual_skipped := user_answers.countP (fun a => a.is_skipped)
    let tr2 := { tr1 with skipped_answers := actual_skipped }
    let previous_best_correct := priorBestCorrect db tr0.test_id tr0.user_id test_result_id
    let tr3 :=
      if 0 < previous_best_correct then
        match argminBestDuration
            (tiedPriorBest db tr0.test_id tr0.user_id test_result_id) with
        | some previous_best =>
          if previous_best_correct < tr2.correct_answers ∨
              (tr2.correct_answers = previous_best_correct ∧
                duration < previous_best.best_duration) then
            setBestOwn tr2 duration
          else
            copyBest tr2 previous_best
        | none => setBestOwn tr2 duration
      else
        setBestOwn tr2 duration
    let total_participants := (db.filter (fun r => r.test_id == tr0.test_id)).length
    let better_count :=
      (db.filter (fun r =>
        r.test_id == tr0.test_id && decide (tr0.correct_answers < r.correct_answers))).length
    let position := better_count + 1
    let percentage : ℚ :=
      if 0 < total_participants then
        ((total_participants : ℚ) - (better_count : ℚ)) / (total_participants : ℚ) * 100
      else 100
    some ({ tr3 with completed := true }, position, percentage)

/-! ## Quiz format parser: `parse_text` (src/file_parser.py lines 43-250) -/

/-- A parsed answer: `{'text': ..., 'is_correct': ...}`. -/
structure PAnswer where
  text : Str
  is_correct : Bool
deriving DecidableEq

/-- A parsed question:
`{'question_number': ..., 'question_text': ..., 'answers': ...}`. -/
structure PQuestion where
  question_number : Nat
  question_text : Str
  answers : List PAnswer
deriving DecidableEq

/-- A parsed block (`{'questions': ...}`), one element of the list
`parse_text` returns with `return_all=True`. -/
structure PBlock where
  questions : List PQuestion
deriving DecidableEq

/-- The `++++` block separator. -/
def plusSep : Str := ['+', '+', '+', '+']

/-- Python `'++++' in text`. -/
def containsPlus : Str → Bool
  | [] => false
  | c :: rest => plusSep.isPrefixOf (c :: rest) || containsPlus rest

/-- `re.split(r'\+\+\+\+', text)`: split on non-overlapping leftmost
occurrences of `++++`. -/
def splitPlus (cur : Str) : Str → List Str
  | [] => [cur]
  | '+' :: '+' :: '+' :: '+' :: rest => cur :: splitPlus [] rest
  | c :: rest => splitPlus (cur ++ [c]) rest

/-- The newline character (Python splits sections on `'\n'`). -/
def chr10 : Char := Char.ofNat 10

/-- Python `section.split('\n')`. -/
def splitNewline (cur : Str) : Str → List Str
  | [] => [cur]
  | c :: rest =>
    if c == chr10 then cur :: splitNewline [] rest
    else splitNewline (cur ++ [c]) rest

/-- `[line.strip() for line in section.split('\n') if line.strip()]`. -/
def splitLines (s : Str) : List Str :=
  ((splitNewline [] s).map pyStrip).filter (fun l => !l.isEmpty)

/-- `line.startswith('====') or line.startswith('---') or
line.startswith('___')`. -/
def isSeparatorLine (l : Str) : Bool :=
  (['=', '=', '=', '=']).isPrefixOf l || (['-', '-', '-']).isPrefixOf l ||
    (['_', '_', '_']).isPrefixOf l

/-- `re.match(r'^\d+\.', line)` as a Boolean (digits modelled as ASCII
digits). -/
def numDotPrefix (l : Str) : Bool :=
  let ds := l.takeWhile (fun c => c.isDigit)
  if ds.isEmpty then false
  else
    match l.drop ds.length with
    | '.' :: _ => true
    | _ => false

/-- `int(...)` on a digit run. -/
def natOfDigits (ds : Str) : Nat :=
  ds.foldl (fun n c => n * 10 + (c.toNat - Char.toNat '0')) 0

/-- `re.match(r'^(\d+)\.\s*(.+)$', line)` with `group(2).strip()`:
matches iff the line starts with digits and a dot and something follows;
greedy `\s*` with backtracking makes the stripped group equal to the
stripped remainder. -/
def matchQuestion (l : Str) : Option (Nat × Str) :=
  let ds := l.takeWhile (fun c => c.isDigit)
  if ds.isEmpty then none
  else
    match l.drop ds.length with
    | '.' :: rest => if rest.isEmpty then none else some (natOfDigits ds, pyStrip rest)
    | _ => none

/-- Embedding of `is_answer_option`:
`re.match(r'^([a-zA-Z])[\.\)]\s*(.+)$', line)` with the letter
lowercased and `group(2).strip()` as the option text. -/
def is_answer_option (l : Str) : Option (Char × Str) :=
  match l with
  | c0 :: c1 :: rest =>
    if c0.isAlpha && (c1 == '.' || c1 == ')') && !rest.isEmpty then
      some (c0.toLower, pyStrip rest)
    else none
  | _ => none

/-- The inner answer loop of the numbered-question branch, running over
the remaining lines: skip separator runs, stop (without consuming) at
the next numbered question, append every line with non-empty
marker-stripped text as an answer.  Returns the collected answers and
the number of lines consumed. -/
def collectNumberedAnswers : List Str → List PAnswer → List PAnswer × Nat
  | [], acc => (acc, 0)
  | line :: rest, acc =>
    if isSeparatorLine line then
      let r := collectNumberedAnswers rest acc
      (r.1, r.2 + 1)
    else
      let pr := is_correct_answer_marker line
      match matchQuestion line with
      | some _ => (acc, 0)
      | none =>
        let r :=
          if !pr.2.isEmpty then collectNumberedAnswers rest (acc ++ [⟨pr.2, pr.1⟩])
          else collectNumberedAnswers rest acc
        (r.1, r.2 + 1)

/-- The look-back loop of the lettered-option branch: walking from index
`jp1 - 1` downwards, stop at an option or `N.`-prefixed line, collect
every other line that is non-empty and not a `====` run (the collected
lines end up in ascending order). -/
def lookback (lines : List Str) : Nat → List Str
  | 0 => []
  | jp1 + 1 =>
    let line := lines.getD jp1 []
    if (is_answer_option line).isSome || numDotPrefix line then []
    else
      let prevs := lookback lines jp1
      if !line.isEmpty && !(['=', '=', '=', '=']).isPrefixOf line then prevs ++ [line]
      else prevs

/-- `for j in range(i + 1, min(i + 5, len(lines)))` over the window
lines: an option line or a `====` run means answers follow; a numbered
question line stops the scan. -/
def futureScan : List Str → Bool
  | [] => false
  | line :: rest =>
    if (is_answer_option line).isSome || (['=', '=', '=', '=']).isPrefixOf line then
      true
    else if numDotPrefix line then false
    else futureScan rest

/-- `has_future_answers` of the unnumbered-narrative branch: scan the at
most 4 lines after index `i`. -/
def has_future_answers (lines : List Str) (i : Nat) : Bool :=
  futureScan ((lines.drop (i + 1)).take 4)

/-- The collection loop of the unnumbered-narrative branch, over the
remaining lines: consume lines until an option line, a `====` run, a
numbered line or the end.  Returns the collected lines and the number
of lines consumed. -/
def narrativeCollect : List Str → List Str → List Str × Nat
  | [], acc => (acc, 0)
  | line :: rest, acc =>
    if (is_answer_option line).isSome || (['=', '=', '=', '=']).isPrefixOf line then
      (acc, 0)
    else if numDotPrefix line then (acc, 0)
    else
      let r := narrativeCollect rest (acc ++ [line])
      (r.1, r.2 + 1)

/-- `' '.join(...)`. -/
def joinSpace : List Str → Str
  | [] => []
  | [l] => l
  | l :: ls => l ++ ' ' :: joinSpace ls

/-- Python truthiness of the `current_question` variable (`None` and the
empty string are falsy). -/
def optTruthy : Option Str → Bool
  | none => false
  | some t => !t.isEmpty

/-- Append the pending question (if any) to the accumulated list,
drawing from the per-block auto counter when the question has no
explicit number (and advancing the counter only then). -/
def flushPending (cq : Option Str) (ca : List PAnswer) (qn : Option Nat)
    (auto : Nat) (qs : List PQuestion) : List PQuestion × Nat :=
  match cq with
  | none => (qs, auto)
  | some t =>
    match qn with
    | some n => (qs ++ [⟨n, t, ca⟩], auto)
    | none => (qs ++ [⟨auto, t, ca⟩], auto + 1)

/-- The mutable state of the `while i < len(lines)` loop of
`parse_text`. -/
structure ParserState where
  lines : List Str
  i : Nat
  current_question : Option Str
  current_answers : List PAnswer
  question_number : Option Nat
  auto_question_number : Nat
  in_answer_section : Bool
  questions : List PQuestion
deriving DecidableEq

/-- One iteration of the `while i < len(lines)` loop of `parse_text`
(assuming `i < lines.length`), with the same dispatch order as the
code: separators, numbered questions (with their inner answer loop),
lettered options (with look-back question recovery), answers after a
separator, unnumbered narrative questions (with lookahead), silent
skip. -/
def parseStep (st : ParserState) : ParserState :=
  let line := st.lines.getD st.i []
  if isSeparatorLine line then
    { st with in_answer_section := true, i := st.i + 1 }
  else
    match matchQuestion line with
    | some nq =>
      let fl := flushPending st.current_question st.current_answers
          st.question_number st.auto_question_number st.questions
      let col := collectNumberedAnswers (st.lines.drop (st.i + 1)) []
      { st with questions := fl.1, auto_question_number := fl.2,
                question_number := some nq.1, current_question := some nq.2,
                current_answers := col.1, in_answer_section := false,
                i := st.i + 1 + col.2 }
    | none =>
      match is_answer_option line with
      | some opt =>
        -- recover the question from the preceding lines when none is
        -- pending, then append the option as an answer, then advance
        let base :=
          if st.current_question.isNone then
            let qlines := lookback st.lines st.i
            if !qlines.isEmpty then
              (some (joinSpace qlines), ([] : List PAnswer), (none : Option Nat))
            else (st.current_question, st.current_answers, st.question_number)
          else (st.current_question, st.current_answers, st.question_number)
        let ca :=
          if !opt.2.isEmpty then
            let pr := is_correct_answer_marker opt.2
            if !pr.2.isEmpty then base.2.1 ++ [⟨pr.2, pr.1⟩] else base.2.1
          else base.2.1
        { st with current_question := base.1, current_answers := ca,
                  question_number := base.2.2, i := st.i + 1 }
      | none =>
        if st.in_answer_section && optTruthy st.current_question then
          match matchQuestion line with
          | some _ => { st with in_answer_section := false }
          | none =>
            let pr := is_correct_answer_marker line
            if !pr.2.isEmpty then
              { st with current_answers := st.current_answers ++ [⟨pr.2, pr.1⟩],
                        i := st.i + 1 }
            else { st with i := st.i + 1 }
        else if st.current_question.isNone then
          if has_future_answers st.lines st.i then
            let col := narrativeCollect (st.lines.drop (st.i + 1)) [line]
            { st with current_question := some (joinSpace col.1),
                      question_number := none, current_answers := [],
                      i := st.i + 1 + col.2 }
          else { st with i := st.i + 1 }
        else { st with i := st.i + 1 }

/-- Fuel-indexed `while i < len(lines)` loop; `none` means the fuel ran
out (the totality theorem shows it never does with enough fuel). -/
def parseLoop : Nat → ParserState → Option ParserState
  | 0, _ => none
  | fuel + 1, st =>
    if st.i < st.lines.length then parseLoop fuel (parseStep st) else some st

/-- Termination measure of the loop: every iteration either advances
`i` or turns `in_answer_section` off at the same `i`. -/
def parseMeasure (st : ParserState) : Nat :=
  2 * (st.lines.length - st.i) + st.in_answer_section.toNat

/-- The per-section work of `parse_text`: split into stripped non-empty
lines, run the loop from the initial state, flush the last pending
question. -/
def parseSection (sec : Str) : Option (List PQuestion) :=
  let lines := splitLines sec
  let st0 : ParserState := ⟨lines, 0, none, [], none, 1, false, []⟩
  match parseLoop (parseMeasure st0 + 1) st0 with
  | none => none
  | some st =>
    some (flushPending st.current_question st.current_answers
      st.question_number st.auto_question_number st.questions).1

/-- The `for section in test_sections` loop: strip each section, skip
empty ones, and keep a block only when it produced questions. -/
def parseSections : List Str → Option (List PBlock)
  | [] => some []
  | sec :: rest =>
    let s := pyStrip sec
    if s.isEmpty then parseSections rest
    else
      match parseSection s, parseSections rest with
      | some qs, some blocks =>
        some (if qs.isEmpty then blocks else ⟨qs⟩ :: blocks)
      | _, _ => none

/-- Embedding of `parse_text` with `return_all=True`: split on `++++`
when present, parse each section, return the non-empty blocks. -/
def parse_text (text : Str) : Option (List PBlock) :=
  let test_sections := if containsPlus text then splitPlus [] text else [text]
  parseSections test_sections

/-! ## Block validation and assembly
(src/file_parser.py lines 253-274, src/bot.py lines 829-899) -/

/-- The reasons `validate_parsed_test` reports (the Python function
returns localized message strings; the specification names them
`MissingQuestionText`, `InsufficientAnswers`, `AmbiguousCorrectMarker`).
The index is the 1-based question index in the message. -/
inductive ValidationReason where
  | ok
  | noQuestions
  | missingQuestionText (idx : Nat)
  | insufficientAnswers (idx : Nat)
  | ambiguousCorrectMarker (idx : Nat)
deriving DecidableEq

/-- The `for i, q in enumerate(questions, 1)` loop of
`validate_parsed_test`: first failing question wins; text emptiness,
then answer count, then exactly-one-correct. -/
def validateQuestions : List PQuestion → Nat → Bool × ValidationReason
  | [], _ => (true, .ok)
  | q :: rest, idx =>
    if q.question_text.isEmpty then (false, .missingQuestionText idx)
    else if q.answers.length < 2 then (false, .insufficientAnswers idx)
    else if q.answers.countP (fun a => a.is_correct) ≠ 1 then
      (false, .ambiguousCorrectMarker idx)
    else validateQuestions rest (idx + 1)

/-- Embedding of `validate_parsed_test` on a parsed block (the `None`
and missing-key guards of the Python function cannot arise for a typed
block). -/
def validate_parsed_test (t : PBlock) : Bool × ValidationReason :=
  if t.questions.isEmpty then (false, .noQuestions)
  else validateQuestions t.questions 1

/-- Insert a question after every already-placed question with a number
not exceeding its own (the insertion step of a stable sort by
`question_number`). -/
def insertByNumber (q : PQuestion) : List PQuestion → List PQuestion
  | [] => [q]
  | p :: rest =>
    if q.question_number < p.question_number then q :: p :: rest
    else p :: insertByNumber q rest

/-- `all_questions.sort(key=lambda x: x['question_number'])`: Python
`list.sort` is a stable sort by the key, embedded as a stable insertion
sort (left-to-right insertion, ties keep first-come order). -/
def sortByNumber (l : List PQuestion) : List PQuestion :=
  l.foldl (fun acc q => insertByNumber q acc) []

/-- The assembly step of `receive_test_file`: keep the questions of the
blocks that pass validation and sort them by question number. -/
def assembleQuestions (parsed_tests : List PBlock) : List PQuestion :=
  let all_questions :=
    ((parsed_tests.filter (fun t => (validate_parsed_test t).1)).map
      (fun t => t.questions)).flatten
  sortByNumber all_questions

end CDQuizBot

open CDQuizBot

/-- `findMarker` only returns markers from its list, and only prefixes. -/
theorem findMarker_eq_some {ms : List Str} {t m : Str}
    (h : findMarker ms t = some m) : m ∈ ms ∧ m.isPrefixOf t = true := by
  induction ms with
  | nil => simp [findMarker] at h
  | cons m0 ms ih =>
    by_cases hp : m0.isPrefixOf t
    · simp [findMarker, hp] at h
      exact ⟨by simp [h], h ▸ hp⟩
    · simp [findMarker, hp] at h
      rcases ih h with ⟨h1, h2⟩
      exact ⟨List.mem_cons_of_mem _ h1, h2⟩

/-- When `findMarker` finds nothing, no marker in the list is a prefix. -/
theorem findMarker_eq_none {ms : List Str} {t : Str}
    (h : findMarker ms t = none) : ∀ m ∈ ms, ¬ m.isPrefixOf t = true := by
  induction ms with
  | nil => simp
  | cons m0 ms ih =>
    by_cases hp : m0.isPrefixOf t
    · simp [findMarker, hp] at h
    · simp [findMarker, hp] at h
      intro m hm
      rcases List.mem_cons.mp hm with rfl | hm'
      · exact fun hc => hp hc
      · exact ih h m hm'

/-- C5: `calculate_test_cost` is a pure function of the question count
that returns 10000 for counts ≤ 100, 15000 for 101-199, 20000 for
200-299, and 10000 + 10000 + 5000·⌈(n−300)/100⌉ from 300 on
(`cost_spec` states exactly that formula), and takes the nine tabulated
values f(50)=10000, f(100)=10000, f(101)=15000, f(199)=15000,
f(200)=20000, f(300)=20000, f(301)=25000, f(400)=25000, f(401)=30000. -/
theorem C5_cost_formula :
    (∀ n, calculate_test_cost n = cost_spec n) ∧
    calculate_test_cost 50 = 10000 ∧ calculate_test_cost 100 = 10000 ∧
    calculate_test_cost 101 = 15000 ∧ calculate_test_cost 199 = 15000 ∧
    calculate_test_cost 200 = 20000 ∧ calculate_test_cost 300 = 20000 ∧
    calculate_test_cost 301 = 25000 ∧ calculate_test_cost 400 = 25000 ∧
    calculate_test_cost 401 = 30000 := by
  refine ⟨fun n => ?_, by decide, by decide, by decide, by decide, by decide,
    by decide, by decide, by decide, by decide⟩
  unfold calculate_test_cost cost_spec
  dsimp only
  split_ifs <;> omega

/-- C6 counterexample: on a line beginning with `→→` the code strips only
the FIRST arrow (the single-arrow marker `→` precedes `→→` in the list
and the loop takes the first match), so the answer text keeps the second
arrow — the claim says both arrow characters are removed. -/
theorem C6_counterexample :
    is_correct_answer_marker ('→' :: '→' :: 'a' :: 'b' :: []) =
      (true, '→' :: 'a' :: 'b' :: []) ∧
    (is_correct_answer_marker ('→' :: '→' :: 'a' :: 'b' :: [])).2 ≠
      ('a' :: 'b' :: []) := by
  decide

/-- C6 (amended): correct-marker detection checks the ordered marker set
by FIRST match in listed order (an answer is marked correct iff some
marker of the set is a prefix of the stripped line), the matching marker
is stripped and the remainder trimmed; since `→` precedes `→→` in the
list, a line beginning with `→→` matches the single-arrow marker and only
the first arrow is removed — the second arrow stays in the answer text. -/
theorem C6_amended :
    (∀ text : Str, (is_correct_answer_marker text).1 = true ↔
      ∃ m ∈ markers, m.isPrefixOf (pyStrip text) = true) ∧
    (∀ text rest : Str, pyStrip text = '→' :: '→' :: rest →
      is_correct_answer_marker text = (true, pyStrip ('→' :: rest))) := by
  constructor
  · intro text
    unfold is_correct_answer_marker
    cases hf : findMarker markers (pyStrip text) with
    | some m =>
      simp only [hf]
      exact ⟨fun _ => ⟨m, (findMarker_eq_some hf).1, (findMarker_eq_some hf).2⟩,
        fun _ => trivial⟩
    | none =>
      simp only [hf]
      constructor
      · intro hcontra
        exact absurd hcontra (by simp)
      · rintro ⟨m, hm, hp⟩
        exact absurd hp (findMarker_eq_none hf m hm)
  · intro text rest h
    unfold is_correct_answer_marker
    rw [h]
    rfl

/-- Witness for the C6 amended theorem at the concrete line `→→ab`. -/
theorem C6_amended_witness :
    pyStrip ('→' :: '→' :: 'a' :: 'b' :: []) = '→' :: '→' :: 'a' :: 'b' :: [] ∧
    is_correct_answer_marker ('→' :: '→' :: 'a' :: 'b' :: []) =
      (true, pyStrip ('→' :: 'a' :: 'b' :: [])) :=
  ⟨by decide, C6_amended.2 ('→' :: '→' :: 'a' :: 'b' :: []) ('a' :: 'b' :: []) (by decide)⟩

theorem replaceFirst_countP {l : List UserAnswer} {qid : Nat} {ex : UserAnswer}
    (hex : l.find? (fun ua => ua.question_id == qid) = some ex)
    (p : UserAnswer → Bool) (ua : UserAnswer) :
    (replaceFirst l qid ua).countP p + (if p ex then 1 else 0) =
      l.countP p + (if p ua then 1 else 0) := by
  induction l with
  | nil => simp [List.find?] at hex
  | cons x rest ih =>
    by_cases hq : x.question_id = qid
    · have hx : x = ex := by
        rw [List.find?_cons_of_pos] at hex
        · exact (Option.some_inj.mp hex)
        · simp [hq]
      subst hx
      simp [replaceFirst, hq, List.countP_cons]
      omega
    · rw [List.find?_cons_of_neg] at hex
      · have := ih hex
        simp [replaceFirst, hq, List.countP_cons]
        omega
      · simp [hq]

theorem answers_update (st : SessionState) (qid : Nat)
    (choice : Option (Nat × Bool)) (ex : UserAnswer)
    (hex : st.answers.find? (fun ua => ua.question_id == qid) = some ex) :
    (handle_answer_question st qid choice).answers =
      replaceFirst st.answers qid (newRow choice ex) := by
  rcases choice with _ | ⟨aid, isc⟩ <;>
    simp [handle_answer_question, hex, newRow]

theorem mem_replaceFirst {l : List UserAnswer} {qid : Nat} {ua x : UserAnswer}
    (hx : x ∈ replaceFirst l qid ua) : x ∈ l ∨ x = ua := by
  induction l with
  | nil => simp [replaceFirst] at hx
  | cons y rest ih =>
    by_cases hq : y.question_id = qid
    · simp [replaceFirst, hq] at hx
      rcases hx with rfl | hx
      · exact Or.inr rfl
      · exact Or.inl (List.mem_cons_of_mem _ hx)
    · simp [replaceFirst, hq] at hx
      rcases hx with rfl | hx
      · exact Or.inl (List.mem_cons_self _ _)
      · rcases ih hx with h | h
        · exact Or.inl (List.mem_cons_of_mem _ h)
        · exact Or.inr h

theorem flagsExclusive_step (st : SessionState) (qid : Nat)
    (choice : Option (Nat × Bool)) (h : flagsExclusive st.answers) :
    flagsExclusive (handle_answer_question st qid choice).answers := by
  rcases hex : st.answers.find? (fun ua => ua.question_id == qid) with _ | ex
  · rcases choice with _ | ⟨aid, isc⟩ <;>
      · simp only [handle_answer_question, hex]
        intro ua hua
        rcases List.mem_append.mp hua with hm | hm
        · exact h ua hm
        · simp at hm
          subst hm
          simp
  · rcases choice with _ | ⟨aid, isc⟩ <;>
      · simp only [handle_answer_question, hex]
        intro ua hua
        rcases mem_replaceFirst hua with hm | rfl
        · exact h ua hm
        · simp [newRow]

theorem countersMatch_step (st : SessionState) (qid : Nat)
    (choice : Option (Nat × Bool)) (hm : countersMatch st)
    (hx : flagsExclusive st.answers) :
    countersMatch (handle_answer_question st qid choice) := by
  intro c
  rcases hex : st.answers.find? (fun ua => ua.question_id == qid) with _ | ex
  · have hcnt := hm c
    rcases choice with _ | ⟨aid, isc⟩
    · cases c <;>
        simp [handle_answer_question, hex, counterOf, List.countP_append, catP]
          at hcnt ⊢ <;> omega
    · cases isc <;> cases c <;>
        simp [handle_answer_question, hex, counterOf, List.countP_append, catP]
          at hcnt ⊢ <;> omega
  · have hmem := List.mem_of_find?_eq_some hex
    have hans := answers_update st qid choice ex hex
    have hexcl := hx ex hmem
    have h1 := hm Category.correct
    have h2 := hm Category.wrong
    have h3 := hm Category.skipped
    have hr1 := replaceFirst_countP hex (catP Category.correct) (newRow choice ex)
    have hr2 := replaceFirst_countP hex (catP Category.wrong) (newRow choice ex)
    have hr3 := replaceFirst_countP hex (catP Category.skipped) (newRow choice ex)
    rw [show (handle_answer_question st qid choice).answers =
        replaceFirst st.answers qid (newRow choice ex) from hans]
    rcases choice with _ | ⟨aid, isc⟩ <;> [skip; cases isc] <;>
      cases hs : ex.is_skipped <;> cases hc : ex.is_correct <;> cases c <;>
      simp [handle_answer_question, hex, counterOf, catP, newRow, hs, hc]
        at h1 h2 h3 hr1 hr2 hr3 hexcl ⊢ <;>
      try omega
    · have q2 : 0 < st.answers.countP (fun ua => !ua.is_correct && !ua.is_skipped) :=
        List.countP_pos_iff.mpr ⟨ex, hmem, by simp [hc, hs]⟩
      omega
    · have q1 : 0 < st.answers.countP (fun ua => ua.is_correct) :=
        List.countP_pos_iff.mpr ⟨ex, hmem, by simp [hc, hs]⟩
      omega

theorem inv_applyOps (ops : List RecordOp) :
    countersMatch (applyOps initState ops) ∧
    flagsExclusive (applyOps initState ops).answers := by
  suffices h : ∀ st, countersMatch st → flagsExclusive st.answers →
      countersMatch (applyOps st ops) ∧ flagsExclusive (applyOps st ops).answers by
    refine h initState (fun c => by cases c <;> simp [counterOf, initState]) ?_
    intro ua hua
    simp [initState] at hua
  induction ops with
  | nil => exact fun st hm hx => ⟨hm, hx⟩
  | cons op rest ih =>
    intro st hm hx
    simp only [applyOps, List.foldl_cons] at *
    exact ih _ (countersMatch_step _ _ _ hm hx) (flagsExclusive_step _ _ _ hx)

theorem counter_delta (st : SessionState) (qid : Nat) (choice : Option (Nat × Bool))
    (ex : UserAnswer) (hm : countersMatch st) (hx : flagsExclusive st.answers)
    (hex : st.answers.find? (fun ua => ua.question_id == qid) = some ex)
    (c : Category) :
    counterOf (handle_answer_question st qid choice) c
        + (if c = categoryOf ex then 1 else 0)
      = counterOf st c + (if c = categoryOfChoice choice then 1 else 0) := by
  have hm' := countersMatch_step st qid choice hm hx
  have hans := answers_update st qid choice ex hex
  have hmem := List.mem_of_find?_eq_some hex
  have hrep := replaceFirst_countP hex (catP c) (newRow choice ex)
  have h1 := hm c
  have h2 := hm' c
  rw [hans] at h2
  have hexcl := hx ex hmem
  rcases choice with _ | ⟨aid, isc⟩ <;> [skip; cases isc] <;>
    cases hs : ex.is_skipped <;> cases hc : ex.is_correct <;> cases c <;>
    simp [categoryOf, categoryOfChoice, catP, counterOf, newRow, hs, hc]
      at h1 h2 hrep hexcl ⊢ <;>
    omega

/-- C1: starting from a fresh attempt, after every sequence of
`recordAnswer` operations (answer or skip, first answer or re-answer)
each running counter equals the number of recorded answers of its
category (`countersMatch`, hence never negative); and on a re-answer of
an already-recorded question, for every category the counter delta obeys
`new + [category = old one] = old + [category = new one]`: exactly the
old category decreases by 1 and the new one increases by 1, with no
change when the two coincide — in particular re-answering a question
previously answered correctly with a wrong answer decreases the correct
counter by exactly 1, increases the wrong counter by exactly 1 and
leaves the skipped counter unchanged. -/
theorem C1_recordAnswer_counters :
    (∀ ops : List RecordOp, countersMatch (applyOps initState ops)) ∧
    (∀ (ops : List RecordOp) (qid : Nat) (choice : Option (Nat × Bool)) (ex : UserAnswer),
      (applyOps initState ops).answers.find? (fun ua => ua.question_id == qid) = some ex →
      (∀ c : Category,
        counterOf (handle_answer_question (applyOps initState ops) qid choice) c
            + (if c = categoryOf ex then 1 else 0)
          = counterOf (applyOps initState ops) c
            + (if c = categoryOfChoice choice then 1 else 0)) ∧
      (categoryOf ex = Category.correct → categoryOfChoice choice = Category.wrong →
        counterOf (handle_answer_question (applyOps initState ops) qid choice)
            Category.correct + 1
          = counterOf (applyOps initState ops) Category.correct ∧
        counterOf (handle_answer_question (applyOps initState ops) qid choice)
            Category.wrong
          = counterOf (applyOps initState ops) Category.wrong + 1 ∧
        counterOf (handle_answer_question (applyOps initState ops) qid choice)
            Category.skipped
          = counterOf (applyOps initState ops) Category.skipped)) := by
  refine ⟨fun ops => (inv_applyOps ops).1, fun ops qid choice ex hex => ?_⟩
  have hdelta := fun c => counter_delta (applyOps initState ops) qid choice ex
    (inv_applyOps ops).1 (inv_applyOps ops).2 hex c
  refine ⟨hdelta, fun hold hnew => ?_⟩
  have d1 := hdelta Category.correct
  have d2 := hdelta Category.wrong
  have d3 := hdelta Category.skipped
  rw [hold, hnew] at d1 d2 d3
  simp at d1 d2 d3
  exact ⟨by omega, by omega, by omega⟩

/-- Witness for C1: the attempt answered question 1 correctly, then
re-answers it wrongly. -/
theorem C1_witness :
    ((applyOps initState [(1, some (7, true))]).answers.find?
        (fun ua => ua.question_id == 1) = some ⟨1, some 7, true, false⟩) ∧
    (counterOf (handle_answer_question (applyOps initState [(1, some (7, true))]) 1
          (some (8, false))) Category.correct + 1
        = counterOf (applyOps initState [(1, some (7, true))]) Category.correct ∧
      counterOf (handle_answer_question (applyOps initState [(1, some (7, true))]) 1
          (some (8, false))) Category.wrong
        = counterOf (applyOps initState [(1, some (7, true))]) Category.wrong + 1 ∧
      counterOf (handle_answer_question (applyOps initState [(1, some (7, true))]) 1
          (some (8, false))) Category.skipped
        = counterOf (applyOps initState [(1, some (7, true))]) Category.skipped) :=
  ⟨by decide,
    (C1_recordAnswer_counters.2 [(1, some (7, true))] 1 (some (8, false))
      ⟨1, some 7, true, false⟩ (by decide)).2 (by decide) (by decide)⟩

/-- `next_question_index` never exceeds the question count. -/
theorem nqi_le (qs : List QuestionRow) (answered : List Nat) :
    next_question_index qs answered ≤ qs.length :=
  List.findIdx_le_length _

/-- `next_question_index` is in range iff some question is unanswered. -/
theorem nqi_lt_iff (qs : List QuestionRow) (answered : List Nat) :
    next_question_index qs answered < qs.length ↔ ∃ q ∈ qs, q.id ∉ answered := by
  unfold next_question_index
  constructor
  · intro h
    have hp := @List.findIdx_getElem _ (fun q => !(answered.contains q.id)) qs h
    refine ⟨qs[List.findIdx (fun q => !(answered.contains q.id)) qs], List.getElem_mem h, ?_⟩
    simpa using hp
  · rintro ⟨q, hq, hno⟩
    exact List.findIdx_lt_length_of_exists ⟨q, hq, by simp [hno]⟩

/-- The question at `next_question_index` (when in range) is unanswered. -/
theorem nqi_unanswered (qs : List QuestionRow) (answered : List Nat)
    (h : next_question_index qs answered < qs.length) :
    (qs.get ⟨next_question_index qs answered, h⟩).id ∉ answered := by
  unfold next_question_index at h ⊢
  have hp := @List.findIdx_getElem _ (fun q => !(answered.contains q.id)) qs h
  simpa [next_question_index] using hp

/-- Every question before `next_question_index` is answered. -/
theorem nqi_before_answered (qs : List QuestionRow) (answered : List Nat)
    (j : Nat) (hj : j < qs.length) (hji : j < next_question_index qs answered) :
    (qs.get ⟨j, hj⟩).id ∈ answered := by
  unfold next_question_index at hji
  have := @List.not_of_lt_findIdx _ (fun q => !(answered.contains q.id)) qs j hji
  simpa using this

/-- C3: resuming continues at the first question, in ascending
question-number order, with no recorded answer; when every question has
one the attempt is completed and scored instead.  Stated for a question
list sorted by `question_number` as delivered by the SQL `order_by`:
the outcome is `completedAndScored` iff every question id is answered;
a shown index is in range, unanswered, preceded only by answered
questions, and of minimal `question_number` among unanswered ones.
The claim example: five questions numbered 1-5, questions 1 and 3
answered, resumes at index 1 (question number 2). -/
theorem C3_resume_first_unanswered :
    (∀ (qs : List QuestionRow) (answered : List Nat),
      qs.Pairwise (fun a b => a.question_number ≤ b.question_number) →
      (handle_continue_test qs answered = ContinueOutcome.completedAndScored ↔
        ∀ q ∈ qs, q.id ∈ answered) ∧
      (∀ i, handle_continue_test qs answered = ContinueOutcome.showQuestion i →
        ∃ hi : i < qs.length,
          (qs.get ⟨i, hi⟩).id ∉ answered ∧
          (∀ j (hj : j < qs.length), j < i → (qs.get ⟨j, hj⟩).id ∈ answered) ∧
          (∀ q ∈ qs, q.id ∉ answered →
            (qs.get ⟨i, hi⟩).question_number ≤ q.question_number))) ∧
    handle_continue_test
        [⟨11, 1, []⟩, ⟨12, 2, []⟩, ⟨13, 3, []⟩, ⟨14, 4, []⟩, ⟨15, 5, []⟩]
        [11, 13] = ContinueOutcome.showQuestion 1 := by
  constructor
  · intro qs answered hsorted
    constructor
    · simp only [handle_continue_test]
      constructor
      · intro h
        split at h
        · rename_i hge
          intro q hq
          by_contra hno
          have := (nqi_lt_iff qs answered).mpr ⟨q, hq, hno⟩
          omega
        · simp at h
      · intro hall
        have : ¬ next_question_index qs answered < qs.length := by
          intro hlt
          rcases (nqi_lt_iff qs answered).mp hlt with ⟨q, hq, hno⟩
          exact hno (hall q hq)
        simp only [ge_iff_le]
        rw [if_pos (by omega)]
    · intro i hi
      simp only [handle_continue_test] at hi
      split at hi
      · simp at hi
      · rename_i hnge
        simp only [ContinueOutcome.showQuestion.injEq] at hi
        subst hi
        have hlt : next_question_index qs answered < qs.length := by omega
        refine ⟨hlt, nqi_unanswered qs answered hlt, ?_, ?_⟩
        · intro j hj hji
          exact nqi_before_answered qs answered j hj hji
        · intro q hq hqno
          rcases List.mem_iff_getElem.mp hq with ⟨j, hjl, rfl⟩
          by_cases hji : j < next_question_index qs answered
          · have := nqi_before_answered qs answered j hjl hji
            simp only [List.get_eq_getElem] at this
            exact absurd this hqno
          · push_neg at hji
            rcases Nat.eq_or_lt_of_le hji with heq | hlt2
            · simp [List.get_eq_getElem, ← heq]
            · have := (List.pairwise_iff_getElem.mp hsorted) _ _ hlt hjl hlt2
              simpa using this
  · decide

/-- Witness for C3 at the claim's concrete 5-question quiz with
questions 1 and 3 answered. -/
theorem C3_witness :
    ([⟨11, 1, []⟩, ⟨12, 2, []⟩, ⟨13, 3, []⟩, ⟨14, 4, []⟩, ⟨15, 5, []⟩] :
        List QuestionRow).Pairwise
      (fun a b => a.question_number ≤ b.question_number) ∧
    (handle_continue_test
        [⟨11, 1, []⟩, ⟨12, 2, []⟩, ⟨13, 3, []⟩, ⟨14, 4, []⟩, ⟨15, 5, []⟩]
        [11, 13] = ContinueOutcome.completedAndScored ↔
      ∀ q ∈ ([⟨11, 1, []⟩, ⟨12, 2, []⟩, ⟨13, 3, []⟩, ⟨14, 4, []⟩, ⟨15, 5, []⟩] :
          List QuestionRow), q.id ∈ [11, 13]) :=
  ⟨by decide,
    (C3_resume_first_unanswered.1
      [⟨11, 1, []⟩, ⟨12, 2, []⟩, ⟨13, 3, []⟩, ⟨14, 4, []⟩, ⟨15, 5, []⟩]
      [11, 13] (by decide)).1⟩

/-- C10: on completion, the skipped counter is recomputed from storage
(the number of `UserAnswer` rows with `is_skipped`), overwriting the
running counter, while the correct and wrong counters are carried over
from the running counters without recomputation. -/
theorem C10_finish_recounts_skipped :
    ∀ (db : List AttemptRow) (rid duration : Nat) (ua : List UserAnswer)
      (tr : AttemptRow),
      db.find? (fun r => r.id == rid) = some tr →
      ∃ tr' pos pct, finish_test db rid duration ua = some (tr', pos, pct) ∧
        tr'.skipped_answers = ua.countP (fun a => a.is_skipped) ∧
        tr'.correct_answers = tr.correct_answers ∧
        tr'.wrong_answers = tr.wrong_answers := by
  intro db rid duration ua tr htr
  unfold finish_test
  rw [htr]
  dsimp only
  refine ⟨_, _, _, rfl, ?_⟩
  split <;> [skip; skip] <;> first
  | (split <;> [skip; skip] <;> first
     | (split <;> simp [setBestOwn, copyBest])
     | simp [setBestOwn, copyBest])
  | simp [setBestOwn, copyBest]

/-- Witness for C10 at a one-row database and one skipped answer. -/
theorem C10_witness :
    ([⟨1, 10, 100, 2, 1, 0, 0, 0, 0, 0, 0, 0, false⟩] : List AttemptRow).find?
        (fun r => r.id == 1) = some ⟨1, 10, 100, 2, 1, 0, 0, 0, 0, 0, 0, 0, false⟩ ∧
    (∃ tr' pos pct,
      finish_test [⟨1, 10, 100, 2, 1, 0, 0, 0, 0, 0, 0, 0, false⟩] 1 60
          [⟨5, none, false, true⟩] = some (tr', pos, pct) ∧
      tr'.skipped_answers =
        ([⟨5, none, false, true⟩] : List UserAnswer).countP (fun a => a.is_skipped) ∧
      tr'.correct_answers =
        (⟨1, 10, 100, 2, 1, 0, 0, 0, 0, 0, 0, 0, false⟩ : AttemptRow).correct_answers ∧
      tr'.wrong_answers =
        (⟨1, 10, 100, 2, 1, 0, 0, 0, 0, 0, 0, 0, false⟩ : AttemptRow).wrong_answers) :=
  ⟨by decide,
    C10_finish_recounts_skipped [⟨1, 10, 100, 2, 1, 0, 0, 0, 0, 0, 0, 0, false⟩] 1 60
      [⟨5, none, false, true⟩] ⟨1, 10, 100, 2, 1, 0, 0, 0, 0, 0, 0, 0, false⟩ (by decide)⟩

/-- `finish_test` on a found row always returns: position is the count
of same-test rows with strictly more correct answers plus one, and the
percentage follows the `(total - better) / total * 100` formula. -/
theorem finish_test_components (db : List AttemptRow) (rid duration : Nat)
    (ua : List UserAnswer) (tr : AttemptRow)
    (htr : db.find? (fun r => r.id == rid) = some tr) :
    ∃ tr', finish_test db rid duration ua = some (tr',
      (db.filter (fun r =>
        r.test_id == tr.test_id && decide (tr.correct_answers < r.correct_answers))).length + 1,
      if 0 < (db.filter (fun r => r.test_id == tr.test_id)).length then
        (((db.filter (fun r => r.test_id == tr.test_id)).length : ℚ) -
          ((db.filter (fun r =>
            r.test_id == tr.test_id && decide (tr.correct_answers < r.correct_answers))).length : ℚ)) /
          ((db.filter (fun r => r.test_id == tr.test_id)).length : ℚ) * 100
      else 100) := by
  unfold finish_test
  rw [htr]
  exact ⟨_, rfl⟩

/-- C4 counterexample: the ranking queries of `finish_test` do not
filter on completion.  With one other IN-PROGRESS attempt scoring 7, the
finishing attempt scoring 5 gets position 2 and percentile 50, while the
claim (ranking over Completed attempts only, of which this is the only
one) demands position 1 and percentile 100. -/
theorem C4_counterexample :
    (finish_test
      [⟨1, 10, 100, 5, 0, 0, 0, 0, 0, 0, 0, 0, false⟩,
       ⟨2, 10, 200, 7, 0, 0, 0, 0, 0, 0, 0, 0, false⟩] 1 60 []).map
        (fun r => (r.2.1, r.2.2)) = some (2, (50 : ℚ)) ∧
    (2 : Nat) ≠ 1 ∧ (50 : ℚ) ≠ 100 := by
  refine ⟨?_, by norm_num, by norm_num⟩
  rcases finish_test_components
      [⟨1, 10, 100, 5, 0, 0, 0, 0, 0, 0, 0, 0, false⟩,
       ⟨2, 10, 200, 7, 0, 0, 0, 0, 0, 0, 0, 0, false⟩] 1 60 []
      ⟨1, 10, 100, 5, 0, 0, 0, 0, 0, 0, 0, 0, false⟩ (by decide) with ⟨tr', heq⟩
  rw [heq]
  have h1 :
      (([⟨1, 10, 100, 5, 0, 0, 0, 0, 0, 0, 0, 0, false⟩,
         ⟨2, 10, 200, 7, 0, 0, 0, 0, 0, 0, 0, 0, false⟩] : List AttemptRow).filter
        (fun r => r.test_id == (⟨1, 10, 100, 5, 0, 0, 0, 0, 0, 0, 0, 0, false⟩ :
            AttemptRow).test_id &&
          decide ((⟨1, 10, 100, 5, 0, 0, 0, 0, 0, 0, 0, 0, false⟩ :
            AttemptRow).correct_answers < r.correct_answers))).length = 1 := by decide
  have h2 :
      (([⟨1, 10, 100, 5, 0, 0, 0, 0, 0, 0, 0, 0, false⟩,
         ⟨2, 10, 200, 7, 0, 0, 0, 0, 0, 0, 0, 0, false⟩] : List AttemptRow).filter
        (fun r => r.test_id == (⟨1, 10, 100, 5, 0, 0, 0, 0, 0, 0, 0, 0, false⟩ :
            AttemptRow).test_id)).length = 2 := by decide
  rw [Option.map_some']
  rw [h1, h2]
  norm_num

/-- C4 (amended): ranking is computed over ALL `TestResult` rows of the
quiz regardless of completion status (in-progress attempts and the
finishing attempt itself included in `totalParticipants`): betterCount
is the number of rows with `correct_answers` strictly greater, position
is betterCount + 1, and the percentage is
`(totalParticipants - betterCount) / totalParticipants * 100` (100 when
no row matches, which cannot happen since the row itself is counted);
with three completed attempts scoring 5, 7, 7 the finishing 5 gets
position 3 and percentile 100/3 ≈ 33 and a finishing 7 gets position 1
and percentile 100. -/
theorem C4_amended :
    (∀ (db : List AttemptRow) (rid duration : Nat) (ua : List UserAnswer)
      (tr : AttemptRow),
      db.find? (fun r => r.id == rid) = some tr →
      (finish_test db rid duration ua).map (fun r => (r.2.1, r.2.2)) =
        some ((db.filter (fun r =>
            r.test_id == tr.test_id &&
              decide (tr.correct_answers < r.correct_answers))).length + 1,
          if 0 < (db.filter (fun r => r.test_id == tr.test_id)).length then
            (((db.filter (fun r => r.test_id == tr.test_id)).length : ℚ) -
              ((db.filter (fun r =>
                r.test_id == tr.test_id &&
                  decide (tr.correct_answers < r.correct_answers))).length : ℚ)) /
              ((db.filter (fun r => r.test_id == tr.test_id)).length : ℚ) * 100
          else 100)) ∧
    (finish_test
      [⟨1, 10, 100, 5, 0, 0, 0, 0, 0, 0, 0, 0, true⟩,
       ⟨2, 10, 200, 7, 0, 0, 0, 0, 0, 0, 0, 0, true⟩,
       ⟨3, 10, 300, 7, 0, 0, 0, 0, 0, 0, 0, 0, true⟩] 1 60 []).map
        (fun r => (r.2.1, r.2.2)) = some (3, (100 / 3 : ℚ)) ∧
    (finish_test
      [⟨1, 10, 100, 5, 0, 0, 0, 0, 0, 0, 0, 0, true⟩,
       ⟨2, 10, 200, 7, 0, 0, 0, 0, 0, 0, 0, 0, true⟩,
       ⟨3, 10, 300, 7, 0, 0, 0, 0, 0, 0, 0, 0, true⟩] 2 60 []).map
        (fun r => (r.2.1, r.2.2)) = some (1, (100 : ℚ)) := by
  refine ⟨?_, ?_, ?_⟩
  · intro db rid duration ua tr htr
    rcases finish_test_components db rid duration ua tr htr with ⟨tr', heq⟩
    rw [heq, Option.map_some']
  · rcases finish_test_components
        [⟨1, 10, 100, 5, 0, 0, 0, 0, 0, 0, 0, 0, true⟩,
         ⟨2, 10, 200, 7, 0, 0, 0, 0, 0, 0, 0, 0, true⟩,
         ⟨3, 10, 300, 7, 0, 0, 0, 0, 0, 0, 0, 0, true⟩] 1 60 []
        ⟨1, 10, 100, 5, 0, 0, 0, 0, 0, 0, 0, 0, true⟩ (by decide) with ⟨tr', heq⟩
    rw [heq, Option.map_some']
    have h1 :
        (([⟨1, 10, 100, 5, 0, 0, 0, 0, 0, 0, 0, 0, true⟩,
           ⟨2, 10, 200, 7, 0, 0, 0, 0, 0, 0, 0, 0, true⟩,
           ⟨3, 10, 300, 7, 0, 0, 0, 0, 0, 0, 0, 0, true⟩] : List AttemptRow).filter
          (fun r => r.test_id == (⟨1, 10, 100, 5, 0, 0, 0, 0, 0, 0, 0, 0, true⟩ :
              AttemptRow).test_id &&
            decide ((⟨1, 10, 100, 5, 0, 0, 0, 0, 0, 0, 0, 0, true⟩ :
              AttemptRow).correct_answers < r.correct_answers))).length = 2 := by decide
    have h2 :
        (([⟨1, 10, 100, 5, 0, 0, 0, 0, 0, 0, 0, 0, true⟩,
           ⟨2, 10, 200, 7, 0, 0, 0, 0, 0, 0, 0, 0, true⟩,
           ⟨3, 10, 300, 7, 0, 0, 0, 0, 0, 0, 0, 0, true⟩] : List AttemptRow).filter
          (fun r => r.test_id == (⟨1, 10, 100, 5, 0, 0, 0, 0, 0, 0, 0, 0, true⟩ :
              AttemptRow).test_id)).length = 3 := by decide
    rw [h1, h2]
    norm_num
  · rcases finish_test_components
        [⟨1, 10, 100, 5, 0, 0, 0, 0, 0, 0, 0, 0, true⟩,
         ⟨2, 10, 200, 7, 0, 0, 0, 0, 0, 0, 0, 0, true⟩,
         ⟨3, 10, 300, 7, 0, 0, 0, 0, 0, 0, 0, 0, true⟩] 2 60 []
        ⟨2, 10, 200, 7, 0, 0, 0, 0, 0, 0, 0, 0, true⟩ (by decide) with ⟨tr', heq⟩
    rw [heq, Option.map_some']
    have h1 :
        (([⟨1, 10, 100, 5, 0, 0, 0, 0, 0, 0, 0, 0, true⟩,
           ⟨2, 10, 200, 7, 0, 0, 0, 0, 0, 0, 0, 0, true⟩,
           ⟨3, 10, 300, 7, 0, 0, 0, 0, 0, 0, 0, 0, true⟩] : List AttemptRow).filter
          (fun r => r.test_id == (⟨2, 10, 200, 7, 0, 0, 0, 0, 0, 0, 0, 0, true⟩ :
              AttemptRow).test_id &&
            decide ((⟨2, 10, 200, 7, 0, 0, 0, 0, 0, 0, 0, 0, true⟩ :
              AttemptRow).correct_answers < r.correct_answers))).length = 0 := by decide
    have h2 :
        (([⟨1, 10, 100, 5, 0, 0, 0, 0, 0, 0, 0, 0, true⟩,
           ⟨2, 10, 200, 7, 0, 0, 0, 0, 0, 0, 0, 0, true⟩,
           ⟨3, 10, 300, 7, 0, 0, 0, 0, 0, 0, 0, 0, true⟩] : List AttemptRow).filter
          (fun r => r.test_id == (⟨2, 10, 200, 7, 0, 0, 0, 0, 0, 0, 0, 0, true⟩ :
              AttemptRow).test_id)).length = 3 := by decide
    rw [h1, h2]
    norm_num

/-- Witness for the C4 amended theorem at a one-row database. -/
theorem C4_witness :
    ([⟨1, 10, 100, 5, 0, 0, 0, 0, 0, 0, 0, 0, true⟩] : List AttemptRow).find?
        (fun r => r.id == 1) = some ⟨1, 10, 100, 5, 0, 0, 0, 0, 0, 0, 0, 0, true⟩ ∧
    (finish_test [⟨1, 10, 100, 5, 0, 0, 0, 0, 0, 0, 0, 0, true⟩] 1 60 []).map
        (fun r => (r.2.1, r.2.2)) =
      some ((([⟨1, 10, 100, 5, 0, 0, 0, 0, 0, 0, 0, 0, true⟩] :
          List AttemptRow).filter (fun r =>
            r.test_id == (⟨1, 10, 100, 5, 0, 0, 0, 0, 0, 0, 0, 0, true⟩ :
              AttemptRow).test_id &&
            decide ((⟨1, 10, 100, 5, 0, 0, 0, 0, 0, 0, 0, 0, true⟩ :
              AttemptRow).correct_answers < r.correct_answers))).length + 1,
        if 0 < (([⟨1, 10, 100, 5, 0, 0, 0, 0, 0, 0, 0, 0, true⟩] :
            List AttemptRow).filter (fun r =>
              r.test_id == (⟨1, 10, 100, 5, 0, 0, 0, 0, 0, 0, 0, 0, true⟩ :
                AttemptRow).test_id)).length then
          (((([⟨1, 10, 100, 5, 0, 0, 0, 0, 0, 0, 0, 0, true⟩] :
              List AttemptRow).filter (fun r =>
                r.test_id == (⟨1, 10, 100, 5, 0, 0, 0, 0, 0, 0, 0, 0, true⟩ :
                  AttemptRow).test_id)).length : ℚ) -
            ((([⟨1, 10, 100, 5, 0, 0, 0, 0, 0, 0, 0, 0, true⟩] :
              List AttemptRow).filter (fun r =>
                r.test_id == (⟨1, 10, 100, 5, 0, 0, 0, 0, 0, 0, 0, 0, true⟩ :
                  AttemptRow).test_id &&
                decide ((⟨1, 10, 100, 5, 0, 0, 0, 0, 0, 0, 0, 0, true⟩ :
                  AttemptRow).correct_answers < r.correct_answers))).length : ℚ)) /
            ((([⟨1, 10, 100, 5, 0, 0, 0, 0, 0, 0, 0, 0, true⟩] :
              List AttemptRow).filter (fun r =>
                r.test_id == (⟨1, 10, 100, 5, 0, 0, 0, 0, 0, 0, 0, 0, true⟩ :
                  AttemptRow).test_id)).length : ℚ) * 100
        else 100) :=
  ⟨by decide,
    C4_amended.1 [⟨1, 10, 100, 5, 0, 0, 0, 0, 0, 0, 0, 0, true⟩] 1 60 []
      ⟨1, 10, 100, 5, 0, 0, 0, 0, 0, 0, 0, 0, true⟩ (by decide)⟩

/-- Every element is bounded by the `foldr max 0` of the list. -/
theorem le_foldr_max {l : List Nat} : ∀ x ∈ l, x ≤ l.foldr max 0 := by
  induction l with
  | nil => simp
  | cons a rest ih =>
    intro x hx
    rcases List.mem_cons.mp hx with rfl | hx'
    · simp only [List.foldr_cons]
      exact Nat.le_max_left _ _
    · simp only [List.foldr_cons]
      exact le_trans (ih x hx') (Nat.le_max_right _ _)

/-- A positive `foldr max 0` is attained by some element. -/
theorem foldr_max_mem {l : List Nat} (h : 0 < l.foldr max 0) : l.foldr max 0 ∈ l := by
  induction l with
  | nil => simp at h
  | cons a rest ih =>
    simp only [List.foldr_cons] at h ⊢
    rcases Nat.le_total (rest.foldr max 0) a with hle | hle
    · rw [Nat.max_eq_left hle]
      exact List.mem_cons_self _ _
    · rw [Nat.max_eq_right hle] at h ⊢
      exact List.mem_cons_of_mem _ (ih h)

/-- `argminBestDuration` returns `none` only on the empty list. -/
theorem argminBestDuration_eq_none :
    ∀ {l : List AttemptRow}, argminBestDuration l = none → l = [] := by
  intro l h
  cases l with
  | nil => rfl
  | cons a rest =>
    simp only [argminBestDuration] at h
    cases hrec : argminBestDuration rest with
    | none => simp [hrec] at h
    | some m' =>
      rw [hrec] at h
      dsimp only at h
      split at h <;> simp at h

/-- The row `argminBestDuration` returns is a member of minimal
`best_duration`. -/
theorem argminBestDuration_spec :
    ∀ {l : List AttemptRow} {m : AttemptRow}, argminBestDuration l = some m →
      m ∈ l ∧ ∀ r ∈ l, m.best_duration ≤ r.best_duration := by
  intro l
  induction l with
  | nil => intro m h; simp [argminBestDuration] at h
  | cons a rest ih =>
    intro m h
    simp only [argminBestDuration] at h
    cases hrec : argminBestDuration rest with
    | none =>
      rw [hrec] at h
      dsimp only at h
      have hnil : rest = [] := argminBestDuration_eq_none hrec
      subst hnil
      simp at h
      subst h
      simp
    | some m' =>
      rw [hrec] at h
      dsimp only at h
      rcases ih hrec with ⟨hm', hmin'⟩
      by_cases hd : a.best_duration ≤ m'.best_duration
      · rw [if_pos hd] at h
        simp at h
        subst h
        refine ⟨List.mem_cons_self _ _, ?_⟩
        intro r hr
        rcases List.mem_cons.mp hr with rfl | hr'
        · exact le_refl _
        · exact le_trans hd (hmin' r hr')
      · rw [if_neg hd] at h
        simp at h
        subst h
        refine ⟨List.mem_cons_of_mem _ hm', ?_⟩
        intro r hr
        rcases List.mem_cons.mp hr with rfl | hr'
        · omega
        · exact hmin' r hr'

/-- `argminBestDuration` returns a row on any non-empty list. -/
theorem argminBestDuration_isSome {l : List AttemptRow} (h : l ≠ []) :
    ∃ m, argminBestDuration l = some m := by
  cases l with
  | nil => exact absurd rfl h
  | cons a rest =>
    simp only [argminBestDuration]
    cases hrec : argminBestDuration rest with
    | none => exact ⟨a, rfl⟩
    | some m' =>
      by_cases hd : a.best_duration ≤ m'.best_duration
      · exact ⟨a, by dsimp only; rw [if_pos hd]⟩
      · exact ⟨m', by dsimp only; rw [if_neg hd]⟩

/-- Every other attempt's snapshot is bounded by `priorBestCorrect`. -/
theorem le_priorBestCorrect (db : List AttemptRow) (tid uid rid : Nat) :
    ∀ r ∈ otherAttempts db tid uid rid, r.best_correct ≤ priorBestCorrect db tid uid rid :=
  fun _r hr => le_foldr_max _ (List.mem_map_of_mem _ hr)

/-- A positive `priorBestCorrect` is attained, so the tied list is
non-empty. -/
theorem priorBestCorrect_attained (db : List AttemptRow) (tid uid rid : Nat)
    (h : 0 < priorBestCorrect db tid uid rid) :
    tiedPriorBest db tid uid rid ≠ [] := by
  have hmem : priorBestCorrect db tid uid rid ∈
      (otherAttempts db tid uid rid).map (fun r => r.best_correct) :=
    foldr_max_mem h
  rcases List.mem_map.mp hmem with ⟨r, hr, hrb⟩
  have : r ∈ tiedPriorBest db tid uid rid := by
    unfold tiedPriorBest
    refine List.mem_filter.mpr ⟨hr, ?_⟩
    simp [hrb]
  intro hnil
  rw [hnil] at this
  simp at this

/-- C2 (amended): the previous best is computed from the `best_correct`
snapshots of ALL other attempts of the same (user, quiz) regardless of
completion status: pbc = max best_correct among them (0 when none).
When pbc = 0 — including when another Completed attempt exists whose
snapshot is 0 — the finishing attempt's own counts and duration become
its snapshot.  When pbc > 0, the code selects the first other row with
`best_correct = pbc` of minimal `best_duration`, and the finishing
attempt's own counts become the snapshot iff its correctCount > pbc or
it equals pbc with strictly smaller duration; otherwise that row's
best-* snapshot is copied forward.  In every case the new `best_correct`
is `max(own correctCount, pbc)`, hence at least every other attempt's
snapshot: best-correct is non-decreasing across scored attempts. -/
theorem C2_amended :
    ∀ (db : List AttemptRow) (rid duration : Nat) (ua : List UserAnswer)
      (tr : AttemptRow),
      db.find? (fun r => r.id == rid) = some tr →
      ∃ tr' pos pct, finish_test db rid duration ua = some (tr', pos, pct) ∧
        tr'.best_correct =
          max tr.correct_answers (priorBestCorrect db tr.test_id tr.user_id rid) ∧
        (∀ r ∈ otherAttempts db tr.test_id tr.user_id rid,
          r.best_correct ≤ tr'.best_correct) ∧
        (priorBestCorrect db tr.test_id tr.user_id rid = 0 →
          tr'.best_correct = tr.correct_answers ∧
          tr'.best_wrong = tr.wrong_answers ∧
          tr'.best_skipped = ua.countP (fun a => a.is_skipped) ∧
          tr'.best_duration = duration) ∧
        (0 < priorBestCorrect db tr.test_id tr.user_id rid →
          ∃ pb, argminBestDuration (tiedPriorBest db tr.test_id tr.user_id rid) = some pb ∧
            pb ∈ tiedPriorBest db tr.test_id tr.user_id rid ∧
            (∀ r ∈ tiedPriorBest db tr.test_id tr.user_id rid,
              pb.best_duration ≤ r.best_duration) ∧
            ((priorBestCorrect db tr.test_id tr.user_id rid < tr.correct_answers ∨
              (tr.correct_answers = priorBestCorrect db tr.test_id tr.user_id rid ∧
                duration < pb.best_duration)) →
              tr'.best_correct = tr.correct_answers ∧
              tr'.best_wrong = tr.wrong_answers ∧
              tr'.best_skipped = ua.countP (fun a => a.is_skipped) ∧
              tr'.best_duration = duration) ∧
            (¬(priorBestCorrect db tr.test_id tr.user_id rid < tr.correct_answers ∨
              (tr.correct_answers = priorBestCorrect db tr.test_id tr.user_id rid ∧
                duration < pb.best_duration)) →
              tr'.best_correct = pb.best_correct ∧
              tr'.best_wrong = pb.best_wrong ∧
              tr'.best_skipped = pb.best_skipped ∧
              tr'.best_duration = pb.best_duration)) := by
  intro db rid duration ua tr htr
  unfold finish_test
  rw [htr]
  dsimp only
  by_cases hpbc : 0 < priorBestCorrect db tr.test_id tr.user_id rid
  · rcases argminBestDuration_isSome (priorBestCorrect_attained db tr.test_id tr.user_id rid hpbc)
      with ⟨pb, hpb⟩
    rcases argminBestDuration_spec hpb with ⟨hpbmem, hpbmin⟩
    have hpbc_eq : pb.best_correct = priorBestCorrect db tr.test_id tr.user_id rid := by
      have := List.mem_filter.mp hpbmem
      simpa using this.2
    rw [if_pos hpbc, hpb]
    dsimp only
    by_cases hcond : priorBestCorrect db tr.test_id tr.user_id rid < tr.correct_answers ∨
        (tr.correct_answers = priorBestCorrect db tr.test_id tr.user_id rid ∧
          duration < pb.best_duration)
    · rw [if_pos hcond]
      refine ⟨_, _, _, rfl, ?_, ?_, ?_, ?_⟩
      · simp only [setBestOwn]
        have : priorBestCorrect db tr.test_id tr.user_id rid ≤ tr.correct_answers := by
          rcases hcond with h | ⟨h, _⟩ <;> omega
        simp [Nat.max_eq_left this]
      · intro r hr
        have h1 := le_priorBestCorrect db tr.test_id tr.user_id rid r hr
        have : priorBestCorrect db tr.test_id tr.user_id rid ≤ tr.correct_answers := by
          rcases hcond with h | ⟨h, _⟩ <;> omega
        simp only [setBestOwn]
        omega
      · intro h0; omega
      · intro _
        refine ⟨pb, rfl, hpbmem, hpbmin, fun _ => ?_, fun hn => absurd hcond hn⟩
        simp [setBestOwn]
    · rw [if_neg hcond]
      push_neg at hcond
      refine ⟨_, _, _, rfl, ?_, ?_, ?_, ?_⟩
      · simp only [copyBest]
        have h1 : tr.correct_answers ≤ priorBestCorrect db tr.test_id tr.user_id rid := by
          omega
        simp [hpbc_eq, Nat.max_eq_right h1]
      · intro r hr
        have h1 := le_priorBestCorrect db tr.test_id tr.user_id rid r hr
        simp only [copyBest]
        omega
      · intro h0; omega
      · intro _
        refine ⟨pb, rfl, hpbmem, hpbmin, fun hc => ?_, fun _ => ?_⟩
        · exact absurd hc (by push_neg; exact hcond)
        · simp [copyBest]
  · have hz : priorBestCorrect db tr.test_id tr.user_id rid = 0 := by omega
    rw [if_neg hpbc]
    refine ⟨_, _, _, rfl, ?_, ?_, ?_, ?_⟩
    · simp [setBestOwn, hz]
    · intro r hr
      have h1 := le_priorBestCorrect db tr.test_id tr.user_id rid r hr
      simp only [setBestOwn]
      omega
    · intro _
      simp [setBestOwn]
    · intro h0; omega

/-- C2 counterexample: another COMPLETED attempt exists (correct count
0, snapshot duration 10); the finishing attempt ties with correct count
0 and a longer duration 50, so the claim demands the prior best's
snapshot (duration 10) be copied forward; the code's `or 0` guard takes
the first-attempt branch instead and writes the attempt's own duration
50. -/
theorem C2_counterexample :
    (finish_test
      [⟨1, 10, 100, 0, 3, 0, 0, 0, 0, 0, 0, 0, false⟩,
       ⟨2, 10, 100, 0, 3, 0, 40, 0, 0, 3, 0, 10, true⟩] 1 50 []).map
        (fun r => r.1.best_duration) = some 50 ∧ (50 : Nat) ≠ 10 := ⟨by decide, by decide⟩

/-- Witness for the C2 amended theorem at a one-row database. -/
theorem C2_witness :
    ([⟨1, 10, 100, 2, 1, 0, 0, 0, 0, 0, 0, 0, false⟩] : List AttemptRow).find?
        (fun r => r.id == 1) = some ⟨1, 10, 100, 2, 1, 0, 0, 0, 0, 0, 0, 0, false⟩ ∧
    (∃ tr' pos pct, finish_test [⟨1, 10, 100, 2, 1, 0, 0, 0, 0, 0, 0, 0, false⟩] 1 60 [] = some (tr', pos, pct) ∧
        tr'.best_correct =
          max (⟨1, 10, 100, 2, 1, 0, 0, 0, 0, 0, 0, 0, false⟩ : AttemptRow).correct_answers (priorBestCorrect [⟨1, 10, 100, 2, 1, 0, 0, 0, 0, 0, 0, 0, false⟩] (⟨1, 10, 100, 2, 1, 0, 0, 0, 0, 0, 0, 0, false⟩ : AttemptRow).test_id (⟨1, 10, 100, 2, 1, 0, 0, 0, 0, 0, 0, 0, false⟩ : AttemptRow).user_id 1) ∧
        (∀ r ∈ otherAttempts [⟨1, 10, 100, 2, 1, 0, 0, 0, 0, 0, 0, 0, false⟩] (⟨1, 10, 100, 2, 1, 0, 0, 0, 0, 0, 0, 0, false⟩ : AttemptRow).test_id (⟨1, 10, 100, 2, 1, 0, 0, 0, 0, 0, 0, 0, false⟩ : AttemptRow).user_id 1,
          r.best_correct ≤ tr'.best_correct) ∧
        (priorBestCorrect [⟨1, 10, 100, 2, 1, 0, 0, 0, 0, 0, 0, 0, false⟩] (⟨1, 10, 100, 2, 1, 0, 0, 0, 0, 0, 0, 0, false⟩ : AttemptRow).test_id (⟨1, 10, 100, 2, 1, 0, 0, 0, 0, 0, 0, 0, false⟩ : AttemptRow).user_id 1 = 0 →
          tr'.best_correct = (⟨1, 10, 100, 2, 1, 0, 0, 0, 0, 0, 0, 0, false⟩ : AttemptRow).correct_answers ∧
          tr'.best_wrong = (⟨1, 10, 100, 2, 1, 0, 0, 0, 0, 0, 0, 0, false⟩ : AttemptRow).wrong_answers ∧
          tr'.best_skipped = ([] : List UserAnswer).countP (fun a => a.is_skipped) ∧
          tr'.best_duration = 60) ∧
        (0 < priorBestCorrect [⟨1, 10, 100, 2, 1, 0, 0, 0, 0, 0, 0, 0, false⟩] (⟨1, 10, 100, 2, 1, 0, 0, 0, 0, 0, 0, 0, false⟩ : AttemptRow).test_id (⟨1, 10, 100, 2, 1, 0, 0, 0, 0, 0, 0, 0, false⟩ : AttemptRow).user_id 1 →
          ∃ pb, argminBestDuration (tiedPriorBest [⟨1, 10, 100, 2, 1, 0, 0, 0, 0, 0, 0, 0, false⟩] (⟨1, 10, 100, 2, 1, 0, 0, 0, 0, 0, 0, 0, false⟩ : AttemptRow).test_id (⟨1, 10, 100, 2, 1, 0, 0, 0, 0, 0, 0, 0, false⟩ : AttemptRow).user_id 1) = some pb ∧
            pb ∈ tiedPriorBest [⟨1, 10, 100, 2, 1, 0, 0, 0, 0, 0, 0, 0, false⟩] (⟨1, 10, 100, 2, 1, 0, 0, 0, 0, 0, 0, 0, false⟩ : AttemptRow).test_id (⟨1, 10, 100, 2, 1, 0, 0, 0, 0, 0, 0, 0, false⟩ : AttemptRow).user_id 1 ∧
            (∀ r ∈ tiedPriorBest [⟨1, 10, 100, 2, 1, 0, 0, 0, 0, 0, 0, 0, false⟩] (⟨1, 10, 100, 2, 1, 0, 0, 0, 0, 0, 0, 0, false⟩ : AttemptRow).test_id (⟨1, 10, 100, 2, 1, 0, 0, 0, 0, 0, 0, 0, false⟩ : AttemptRow).user_id 1,
              pb.best_duration ≤ r.best_duration) ∧
            ((priorBestCorrect [⟨1, 10, 100, 2, 1, 0, 0, 0, 0, 0, 0, 0, false⟩] (⟨1, 10, 100, 2, 1, 0, 0, 0, 0, 0, 0, 0, false⟩ : AttemptRow).test_id (⟨1, 10, 100, 2, 1, 0, 0, 0, 0, 0, 0, 0, false⟩ : AttemptRow).user_id 1 < (⟨1, 10, 100, 2, 1, 0, 0, 0, 0, 0, 0, 0, false⟩ : AttemptRow).correct_answers ∨
              ((⟨1, 10, 100, 2, 1, 0, 0, 0, 0, 0, 0, 0, false⟩ : AttemptRow).correct_answers = priorBestCorrect [⟨1, 10, 100, 2, 1, 0, 0, 0, 0, 0, 0, 0, false⟩] (⟨1, 10, 100, 2, 1, 0, 0, 0, 0, 0, 0, 0, false⟩ : AttemptRow).test_id (⟨1, 10, 100, 2, 1, 0, 0, 0, 0, 0, 0, 0, false⟩ : AttemptRow).user_id 1 ∧
                60 < pb.best_duration)) →
              tr'.best_correct = (⟨1, 10, 100, 2, 1, 0, 0, 0, 0, 0, 0, 0, false⟩ : AttemptRow).correct_answers ∧
              tr'.best_wrong = (⟨1, 10, 100, 2, 1, 0, 0, 0, 0, 0, 0, 0, false⟩ : AttemptRow).wrong_answers ∧
              tr'.best_skipped = ([] : List UserAnswer).countP (fun a => a.is_skipped) ∧
              tr'.best_duration = 60) ∧
            (¬(priorBestCorrect [⟨1, 10, 100, 2, 1, 0, 0, 0, 0, 0, 0, 0, false⟩] (⟨1, 10, 100, 2, 1, 0, 0, 0, 0, 0, 0, 0, false⟩ : AttemptRow).test_id (⟨1, 10, 100, 2, 1, 0, 0, 0, 0, 0, 0, 0, false⟩ : AttemptRow).user_id 1 < (⟨1, 10, 100, 2, 1, 0, 0, 0, 0, 0, 0, 0, false⟩ : AttemptRow).correct_answers ∨
              ((⟨1, 10, 100, 2, 1, 0, 0, 0, 0, 0, 0, 0, false⟩ : AttemptRow).correct_answers = priorBestCorrect [⟨1, 10, 100, 2, 1, 0, 0, 0, 0, 0, 0, 0, false⟩] (⟨1, 10, 100, 2, 1, 0, 0, 0, 0, 0, 0, 0, false⟩ : AttemptRow).test_id (⟨1, 10, 100, 2, 1, 0, 0, 0, 0, 0, 0, 0, false⟩ : AttemptRow).user_id 1 ∧
                60 < pb.best_duration)) →
              tr'.best_correct = pb.best_correct ∧
              tr'.best_wrong = pb.best_wrong ∧
              tr'.best_skipped = pb.best_skipped ∧
              tr'.best_duration = pb.best_duration))) :=
  ⟨by decide, C2_amended [⟨1, 10, 100, 2, 1, 0, 0, 0, 0, 0, 0, 0, false⟩] 1 60 [] ⟨1, 10, 100, 2, 1, 0, 0, 0, 0, 0, 0, 0, false⟩ (by decide)⟩


/-- Inserting by number is a permutation of consing. -/
theorem insertByNumber_perm (q : PQuestion) :
    ∀ l : List PQuestion, (insertByNumber q l).Perm (q :: l) := by
  intro l
  induction l with
  | nil => simp [insertByNumber]
  | cons p rest ih =>
    rw [insertByNumber]
    by_cases h : q.question_number < p.question_number
    · rw [if_pos h]
    · rw [if_neg h]
      exact (ih.cons p).trans (List.Perm.swap q p rest)

/-- Members of an insertion are the new element or old members. -/
theorem mem_insertByNumber {q x : PQuestion} {l : List PQuestion}
    (hx : x ∈ insertByNumber q l) : x = q ∨ x ∈ l :=
  (List.mem_cons.mp ((insertByNumber_perm q l).subset hx))

/-- Insertion by number preserves sortedness. -/
theorem insertByNumber_sorted (q : PQuestion) :
    ∀ l : List PQuestion,
      l.Pairwise (fun a b => a.question_number ≤ b.question_number) →
      (insertByNumber q l).Pairwise (fun a b => a.question_number ≤ b.question_number) := by
  intro l
  induction l with
  | nil => intro _; simp [insertByNumber]
  | cons p rest ih =>
    intro h
    rcases List.pairwise_cons.mp h with ⟨hp, hrest⟩
    rw [insertByNumber]
    by_cases hq : q.question_number < p.question_number
    · rw [if_pos hq]
      refine List.pairwise_cons.mpr ⟨?_, h⟩
      intro b hb
      rcases List.mem_cons.mp hb with rfl | hb'
      · omega
      · have := hp b hb'
        omega
    · rw [if_neg hq]
      refine List.pairwise_cons.mpr ⟨?_, ih hrest⟩
      intro b hb
      rcases mem_insertByNumber hb with rfl | hb'
      · omega
      · exact hp b hb'

/-- The insertion fold permutes the accumulator and the input. -/
theorem sortFold_perm :
    ∀ (l acc : List PQuestion),
      (l.foldl (fun acc q => insertByNumber q acc) acc).Perm (acc ++ l) := by
  intro l
  induction l with
  | nil => intro acc; simp
  | cons q rest ih =>
    intro acc
    simp only [List.foldl_cons]
    exact (ih (insertByNumber q acc)).trans
      (((insertByNumber_perm q acc).append_right rest).trans List.perm_middle.symm)

/-- The insertion fold keeps the accumulator sorted. -/
theorem sortFold_sorted :
    ∀ (l acc : List PQuestion),
      acc.Pairwise (fun a b => a.question_number ≤ b.question_number) →
      (l.foldl (fun acc q => insertByNumber q acc) acc).Pairwise
        (fun a b => a.question_number ≤ b.question_number) := by
  intro l
  induction l with
  | nil => intro acc h; exact h
  | cons q rest ih =>
    intro acc h
    simp only [List.foldl_cons]
    exact ih _ (insertByNumber_sorted q acc h)

/-- `sortByNumber` permutes its input. -/
theorem sortByNumber_perm (l : List PQuestion) : (sortByNumber l).Perm l := by
  have := sortFold_perm l []
  simpa [sortByNumber] using this

/-- `sortByNumber` sorts by question number. -/
theorem sortByNumber_sorted (l : List PQuestion) :
    (sortByNumber l).Pairwise (fun a b => a.question_number ≤ b.question_number) :=
  sortFold_sorted l [] (by simp)

/-- One parser step never changes the line list. -/
theorem parseStep_lines (st : ParserState) : (parseStep st).lines = st.lines := by
  unfold parseStep
  dsimp only
  repeat' split
  all_goals rfl

/-- Every parser step decreases the termination measure. -/
theorem parseStep_measure (st : ParserState) (h : st.i < st.lines.length) :
    parseMeasure (parseStep st) < parseMeasure st := by
  unfold parseMeasure parseStep
  dsimp only
  cases hin : st.in_answer_section <;>
    simp only [hin, Bool.false_and, Bool.true_and] <;>
    (repeat' split) <;> dsimp only <;>
    (try simp only [Bool.toNat_true, Bool.toNat_false]) <;> first | omega | simp_all

/-- The parse loop finishes within any fuel above the measure. -/
theorem parseLoop_isSome :
    ∀ (fuel : Nat) (st : ParserState), parseMeasure st < fuel →
      (parseLoop fuel st).isSome := by
  intro fuel
  induction fuel with
  | zero => intro st hst; omega
  | succ fuel ih =>
    intro st hst
    rw [parseLoop]
    by_cases h : st.i < st.lines.length
    · rw [if_pos h]
      refine ih (parseStep st) ?_
      have h1 := parseStep_measure st h
      have h2 := parseStep_lines st
      unfold parseMeasure at *
      omega
    · rw [if_neg h]
      rfl

/-- Parsing a section always produces a question list. -/
theorem parseSection_isSome (sec : Str) : (parseSection sec).isSome := by
  unfold parseSection
  dsimp only
  split
  · rename_i hp
    have h := parseLoop_isSome
      (parseMeasure ⟨splitLines sec, 0, none, [], none, 1, false, []⟩ + 1)
      ⟨splitLines sec, 0, none, [], none, 1, false, []⟩ (by omega)
    rw [hp] at h
    simp at h
  · rfl

/-- Parsing every section always succeeds. -/
theorem parseSections_isSome : ∀ secs : List Str, (parseSections secs).isSome := by
  intro secs
  induction secs with
  | nil => rfl
  | cons sec rest ih =>
    rw [parseSections]
    by_cases hs : (pyStrip sec).isEmpty
    · rw [if_pos hs]; exact ih
    · rw [if_neg hs]
      have h1 := parseSection_isSome (pyStrip sec)
      cases h1p : parseSection (pyStrip sec) with
      | none => rw [h1p] at h1; simp at h1
      | some qs =>
        cases h2p : parseSections rest with
        | none => rw [h2p] at ih; simp at ih
        | some blocks => rfl

/-- C9: `parse_text` is total — for every input string (arbitrary text,
empty or malformed) the fuel `parseMeasure + 1` suffices for the parse
loop of every section, so parsing terminates and returns a list of
blocks, in the worst case an empty list. -/
theorem C9_parse_total : ∀ text : Str, (parse_text text).isSome = true := by
  intro text
  unfold parse_text
  exact parseSections_isSome _

/-- The per-question validation loop fails iff some question is bad. -/
theorem validateQuestions_false_iff :
    ∀ (qs : List PQuestion) (idx : Nat),
      (validateQuestions qs idx).1 = false ↔
        ∃ q ∈ qs, q.question_text = [] ∨ q.answers.length < 2 ∨
          q.answers.countP (fun a => a.is_correct) ≠ 1 := by
  intro qs
  induction qs with
  | nil => intro idx; simp [validateQuestions]
  | cons q rest ih =>
    intro idx
    by_cases h1 : q.question_text.isEmpty
    · simp only [validateQuestions, if_pos h1]
      constructor
      · intro _
        exact ⟨q, List.mem_cons_self _ _, Or.inl (List.isEmpty_iff.mp h1)⟩
      · intro _; trivial
    · rw [validateQuestions, if_neg h1]
      by_cases h2 : q.answers.length < 2
      · rw [if_pos h2]
        constructor
        · intro _
          exact ⟨q, List.mem_cons_self _ _, Or.inr (Or.inl h2)⟩
        · intro _; rfl
      · rw [if_neg h2]
        by_cases h3 : q.answers.countP (fun a => a.is_correct) ≠ 1
        · rw [if_pos h3]
          constructor
          · intro _
            exact ⟨q, List.mem_cons_self _ _, Or.inr (Or.inr h3)⟩
          · intro _; rfl
        · rw [if_neg h3]
          rw [ih (idx + 1)]
          constructor
          · rintro ⟨q', hq', hbad⟩
            exact ⟨q', List.mem_cons_of_mem _ hq', hbad⟩
          · rintro ⟨q', hq', hbad⟩
            rcases List.mem_cons.mp hq' with rfl | hq''
            · exfalso
              rcases hbad with hb | hb | hb
              · exact h1 (by simp [hb])
              · exact h2 hb
              · exact h3 hb
            · exact ⟨q', hq'', hbad⟩

/-- C7: `validate_parsed_test` fails exactly when the block has no
questions, or some question has empty text, fewer than 2 answers, or a
number of correct-marked answers different from 1 (zero and
two-or-more both fail); and a failing block is excluded from assembly
even when another block of the same document is valid: in the concrete
two-block document, the second block (two `#`-marked answers) is
rejected with the ambiguous-correct-marker reason while only the first
block's question is assembled. -/
theorem C7_validate :
    (∀ t : PBlock, (validate_parsed_test t).1 = false ↔
      (t.questions = [] ∨ ∃ q ∈ t.questions,
        q.question_text = [] ∨ q.answers.length < 2 ∨
          q.answers.countP (fun a => a.is_correct) ≠ 1)) ∧
    (parse_text "1. Q1\n====\n#a\nb\n++++\n1. Q2\n====\n#c\n#d".data).map
        (fun bs => bs.map (fun b => (validate_parsed_test b).2)) =
      some [ValidationReason.ok, ValidationReason.ambiguousCorrectMarker 1] ∧
    (parse_text "1. Q1\n====\n#a\nb\n++++\n1. Q2\n====\n#c\n#d".data).map
        (fun bs => (assembleQuestions bs).map
          (fun q => (q.question_number, q.question_text))) =
      some [(1, ['Q', '1'])] := by
  refine ⟨?_, by decide, by decide⟩
  intro t
  unfold validate_parsed_test
  by_cases h0 : t.questions.isEmpty
  · rw [if_pos h0]
    simp [List.isEmpty_iff.mp h0]
  · rw [if_neg h0]
    rw [validateQuestions_false_iff]
    constructor
    · exact fun h => Or.inr h
    · rintro (h | h)
      · exact absurd (List.isEmpty_iff.mpr h) h0
      · exact h

/-- C8 counterexample: a document whose two valid questions are both
explicitly numbered 1 is assembled with both questions keeping number 1
— the stored quiz does NOT have unique question numbers. -/
theorem C8_counterexample :
    (parse_text "1. Q1\n====\n#a\nb\n1. Q2\n====\n#c\nd".data).map
        (fun bs => (assembleQuestions bs).map (fun q => q.question_number)) =
      some [1, 1] ∧
    ¬ ([1, 1] : List Nat).Nodup := by
  exact ⟨by decide, by decide⟩

/-- C8 (amended): assembly stores the questions of the valid blocks
sorted by question number (non-decreasing — a permutation of the valid
blocks' questions), with explicitly numbered questions keeping their
source number and unnumbered questions receiving the per-block
auto-increment counter that starts at 1 and advances only on automatic
assignments; stored numbers are NOT necessarily unique: the document
with two questions both explicitly numbered 1 stores the number twice,
and a question without a number is stored with auto number 1. -/
theorem C8_amended :
    (∀ ts : List PBlock,
      (assembleQuestions ts).Pairwise
        (fun a b => a.question_number ≤ b.question_number) ∧
      (assembleQuestions ts).Perm
        (((ts.filter (fun t => (validate_parsed_test t).1)).map
          (fun t => t.questions)).flatten)) ∧
    (parse_text "1. Q1\n====\n#a\nb\n1. Q2\n====\n#c\nd".data).map
        (fun bs => (assembleQuestions bs).map (fun q => q.question_number)) =
      some [1, 1] ∧
    (parse_text "Quu\na) x\nb) #y".data).map
        (fun bs => (assembleQuestions bs).map (fun q => q.question_number)) =
      some [1] := by
  refine ⟨fun ts => ⟨sortByNumber_sorted _, sortByNumber_perm _⟩, by decide, by decide⟩
